import Mathlib

/-!
Verification development for the XSD structural core of the FuFdFPB repository:
the tree parser and reference resolver (frontend/src/lib/xsd-parser.ts), the
regex-based dependency extractor and role classifier (xsdDependencyParser),
and the duplicated upload-side role inference (SchemaGroupUpload.tsx).

The embedding works over the tokenizer output: the external XML tokenizer
(fast-xml-parser, configured with preserveOrder and attribute capture) is
modelled as a value of type `Except String (List XmlNode)` — `.error` for a
thrown parse exception, `.ok` for the top-level node array.  All text scanning
is carried out over `List Char` with structural recursion so that every
definition evaluates inside the kernel.
-/

set_option maxRecDepth 4096

/-- Leading-character subtraction used to model `String.replace` on a fixed
anchored pattern. -/
def dropChars : Nat → List Char → List Char
  | 0, cs => cs
  | _ + 1, [] => []
  | n + 1, _ :: cs => dropChars n cs

/-- Character-list version of "starts with" (avoiding the stdlib helpers so
every proof obligation reduces structurally). -/
def charsLead : List Char → List Char → Bool
  | [], _ => true
  | _ :: _, [] => false
  | p :: ps, c :: cs => p = c && charsLead ps cs

/-- One node of the tokenizer output.  In preserveOrder mode each element is an
object with a single tag key holding the ordered child array plus a `:@`
attribute object; text and comment pseudo-nodes carry `#text` / `#comment`
keys.  Attribute keys are stored here without the `@_` marker the tokenizer
adds, since the source's `getAttributes` strips that marker again. -/
inductive XmlNode where
  | elem (tag : String) (attrs : List (String × String)) (children : List XmlNode)
  | text (s : String)
  | comment (s : String)

/-- Source `getNodeName`: the first object key that does not start with `@_` or `#`
and is not `:@`; when no key survives the filter the JS `keys[0] || 'unknown'`
yields `'unknown'`.  A text (`#text`) or comment (`#comment`) node has no
surviving key, so it also reports `'unknown'`. -/
def getNodeName : XmlNode → String
  | .elem tag _ _ =>
      if tag = "" ∨ charsLead "@_".data tag.data ∨ charsLead "#".data tag.data ∨ tag = ":@" then
        "unknown"
      else tag
  | .text _ => "unknown"
  | .comment _ => "unknown"

/-- Source `getAttributes`: reads the `:@` object, stripping the `@_` marker from each
key; in this model the marker round-trips, leaving the attribute list. -/
def getAttributes : XmlNode → List (String × String)
  | .elem _ attrs _ => attrs
  | .text _ => []
  | .comment _ => []

/-- The ordered child array stored under the element's tag key. -/
def xmlChildren : XmlNode → List XmlNode
  | .elem _ _ children => children
  | .text _ => []
  | .comment _ => []

/-- JS object property access on the attribute map (keys are unique in real
tokenizer output; the first binding wins here). -/
def lookupAttr : List (String × String) → String → Option String
  | [], _ => none
  | (k, v) :: rest, key => if k = key then some v else lookupAttr rest key

/-- JS membership test `'k' in attributes`. -/
def hasAttr (attrs : List (String × String)) (key : String) : Bool :=
  (lookupAttr attrs key).isSome

/-- A string-valued attribute read through JS truthiness: an absent key and the
empty string are both falsy. -/
def truthyAttr (attrs : List (String × String)) (key : String) : Option String :=
  match lookupAttr attrs key with
  | some v => if v = "" then none else some v
  | none => none

/-- Source expression `attributes['name'] || attributes['ref'] || ''` — the identifying
attribute used for the path and the display name. -/
def identAttr (attrs : List (String × String)) : String :=
  match truthyAttr attrs "name" with
  | some v => v
  | none =>
    match truthyAttr attrs "ref" with
    | some v => v
    | none => ""

/-- Source expression `nodeName.replace(/^xs:|^xsd:/, '')`: strip one leading `xs:` or `xsd:`
marker from a tag name. -/
def stripNs (s : String) : String :=
  if charsLead "xs:".data s.data then ⟨dropChars 3 s.data⟩
  else if charsLead "xsd:".data s.data then ⟨dropChars 4 s.data⟩
  else s

/-- The whitespace class of the JS regexes and of `String.trim` (ASCII part). -/
def isJsSpace (c : Char) : Bool :=
  c = ' ' ∨ c = '\t' ∨ c = '\n' ∨ c = '\r' ∨ c = '\x0b' ∨ c = '\x0c'

def dropJsSpaces : List Char → List Char
  | [] => []
  | c :: cs => if isJsSpace c then dropJsSpaces cs else c :: cs

/-- Model of `String.prototype.trim` over the character list. -/
def trimChars (cs : List Char) : List Char :=
  (dropJsSpaces (dropJsSpaces cs.reverse).reverse)

/-- The `#text` payload of a node, if it is a text pseudo-node. -/
def textOf : XmlNode → Option String
  | .text s => some s
  | _ => none

/-- Innermost loop of `getDocumentation`: the first truthy `#text` item of the
documentation element's content array, trimmed. -/
def findDocText : List XmlNode → Option String
  | [] => none
  | item :: rest =>
    match textOf item with
    | some s => if s = "" then findDocText rest else some ⟨trimChars s.data⟩
    | none => findDocText rest

/-- Middle loop of `getDocumentation`: scan an annotation element's children
for `xs:documentation` / `xsd:documentation` and pull the first text. -/
def findDocInAnn : List XmlNode → Option String
  | [] => none
  | annChild :: rest =>
    let annName := getNodeName annChild
    if annName = "xs:documentation" ∨ annName = "xsd:documentation" then
      match findDocText (xmlChildren annChild) with
      | some d => some d
      | none => findDocInAnn rest
    else findDocInAnn rest

/-- Source `getDocumentation`: walk the node's children for an annotation element and
return the first trimmed documentation text found anywhere under one. -/
def getDocumentation : List XmlNode → Option String
  | [] => none
  | child :: rest =>
    let name := getNodeName child
    if name = "xs:annotation" ∨ name = "xsd:annotation" then
      match findDocInAnn (xmlChildren child) with
      | some d => some d
      | none => getDocumentation rest
    else getDocumentation rest

/-- The non-recursive fields of a parsed `XsdNode`.  The `parent`
back-reference of the source interface is omitted: it is a weak,
traversal-only alias that a value-level tree cannot (and need not) carry. -/
structure NodeData where
  id : String
  name : String
  type : String
  xpath : String
  attributes : List (String × String)
  documentation : Option String
  isRef : Bool
  refName : Option String
  refTargetXpath : Option String
deriving DecidableEq

/-- A node of the parsed schema tree (`XsdNode` in xsd-parser.ts). -/
inductive XsdNode where
  | mk (data : NodeData) (children : List XsdNode)

def XsdNode.data : XsdNode → NodeData
  | .mk d _ => d

def XsdNode.children : XsdNode → List XsdNode
  | .mk _ cs => cs

def XsdNode.id (n : XsdNode) : String := n.data.id
def XsdNode.name (n : XsdNode) : String := n.data.name
def XsdNode.type (n : XsdNode) : String := n.data.type
def XsdNode.xpath (n : XsdNode) : String := n.data.xpath
def XsdNode.attributes (n : XsdNode) : List (String × String) := n.data.attributes
def XsdNode.documentation (n : XsdNode) : Option String := n.data.documentation
def XsdNode.isRef (n : XsdNode) : Bool := n.data.isRef
def XsdNode.refName (n : XsdNode) : Option String := n.data.refName
def XsdNode.refTargetXpath (n : XsdNode) : Option String := n.data.refTargetXpath

/-- The `[@name='v']` path suffix: appended exactly when the identifying
attribute is truthy. -/
def xpathSuffix (attrs : List (String × String)) : String :=
  if identAttr attrs = "" then "" else "[@name=\x27" ++ identAttr attrs ++ "\x27]"

mutual
/-- Source `parseNode(node, parentXpath)` with the global `idCounter` threaded
explicitly: returns the built node (or the skip signal for text/comment/
unknown pseudo-nodes) together with the counter after this subtree. -/
def parseNode : XmlNode → String → Nat → Option XsdNode × Nat
  | .text _, _, c => (none, c)
  | .comment _, _, c => (none, c)
  | x@(.elem _ _ ch), parentXpath, c =>
    let nodeName := getNodeName x
    if nodeName = "#text" ∨ nodeName = "#comment" ∨ nodeName = "unknown" then (none, c)
    else
      let attributes := getAttributes x
      let nameAttr := identAttr attributes
      let xpath :=
        if nameAttr = "" then parentXpath ++ "/" ++ nodeName
        else parentXpath ++ "/" ++ nodeName ++ "[@name=\x27" ++ nameAttr ++ "\x27]"
      let documentation := getDocumentation ch
      let isRef := hasAttr attributes "ref"
      let refName := lookupAttr attributes "ref"
      let (children, c2) := parseChildren ch xpath (c + 1)
      (some (XsdNode.mk
        { id := "node_" ++ toString c
          name := if nameAttr = "" then stripNs nodeName else nameAttr
          type := stripNs nodeName
          xpath := xpath
          attributes := attributes
          documentation := documentation
          isRef := isRef
          refName := if isRef then refName else none
          refTargetXpath := none } children), c2)

/-- The child loop of `parseNode`: parse every child in document order,
keeping the non-skipped ones. -/
def parseChildren : List XmlNode → String → Nat → List XsdNode × Nat
  | [], _, c => ([], c)
  | x :: rest, xp, c =>
    match parseNode x xp c with
    | (some n, c2) =>
      let (ns, c3) := parseChildren rest xp c2
      (n :: ns, c3)
    | (none, c2) => parseChildren rest xp c2
end

/-- The name index built by `buildNameIndex` (a JS `Map` in insertion order). -/
abbrev NameIndex := List (String × XsdNode)

def mapGet : NameIndex → String → Option XsdNode
  | [], _ => none
  | (k, v) :: rest, key => if k = key then some v else mapGet rest key

def mapHas (m : NameIndex) (key : String) : Bool :=
  (mapGet m key).isSome

/-- JS `Map.set`: replace in place when the key exists, append otherwise. -/
def mapSet : NameIndex → String → XsdNode → NameIndex
  | [], key, v => [(key, v)]
  | (k, v0) :: rest, key, v =>
    if k = key then (key, v) :: rest else (k, v0) :: mapSet rest key v

/-- The type-qualified index key `"<kind>:<name>"` of a definition node. -/
def typeKeyStr (n : XsdNode) (nm : String) : String :=
  n.type ++ ":" ++ nm

/-- The per-node step of `buildNameIndex`: a node carrying a truthy `name`
attribute that is not itself a reference is registered under `kind:name`
(overwriting any earlier binding), then under the bare name only when that
key is still free. -/
def indexStep (index : NameIndex) (n : XsdNode) : NameIndex :=
  match truthyAttr n.attributes "name" with
  | some nm =>
    if !n.isRef then
      let i1 := mapSet index (typeKeyStr n nm) n
      if mapHas i1 nm then i1 else mapSet i1 nm n
    else index
  | none => index

mutual
/-- Source `buildNameIndex`: apply the indexing step to the node itself, then to the
whole subtree of every child, in document order. -/
def buildNameIndex : XsdNode → NameIndex → NameIndex
  | n@(.mk _ ch), index => buildNameIndexList ch (indexStep index n)

def buildNameIndexList : List XsdNode → NameIndex → NameIndex
  | [], index => index
  | n :: rest, index => buildNameIndexList rest (buildNameIndex n index)
end

/-- Source expression `refName.includes(':') ? refName.split(':')[1] : refName` — note the code
takes element 1 of the split, i.e. the text between the first and second
colon, not everything after the first colon. -/
def splitOnChar (sep : Char) : List Char → List (List Char)
  | [] => [[]]
  | c :: rest =>
    if c = sep then [] :: splitOnChar sep rest
    else
      match splitOnChar sep rest with
      | g :: gs => (c :: g) :: gs
      | [] => [[c]]

def stripRefName (s : String) : String :=
  match splitOnChar ':' s.data with
  | _ :: second :: _ => ⟨second⟩
  | _ => s

/-- The target lookup of `resolveRefs`: the type-qualified key first, then the
bare stripped name. -/
def resolveLookup (idx : NameIndex) (ty clean : String) : Option XsdNode :=
  match mapGet idx (ty ++ ":" ++ clean) with
  | some t => some t
  | none => mapGet idx clean

/-- The node-local part of `resolveRefs`: when the node is a reference and its
`refName` is truthy, record the found target's xpath. -/
def resolveData (idx : NameIndex) (d : NodeData) : NodeData :=
  match d.isRef, d.refName with
  | true, some rn =>
    if rn = "" then d
    else
      match resolveLookup idx d.type (stripRefName rn) with
      | some t => { d with refTargetXpath := some t.xpath }
      | none => d
  | _, _ => d

mutual
/-- Source `resolveRefs`: annotate every `ref` node whose `refName` is truthy with the
target's xpath when the index lookup hits; recurse over the children. -/
def resolveRefs (idx : NameIndex) : XsdNode → XsdNode
  | .mk d ch => .mk (resolveData idx d) (resolveRefsList idx ch)

def resolveRefsList (idx : NameIndex) : List XsdNode → List XsdNode
  | [] => []
  | n :: rest => resolveRefs idx n :: resolveRefsList idx rest
end

def isSchemaName (s : String) : Bool :=
  s = "xs:schema" ∨ s = "xsd:schema"

/-- The top-level loop of `parseXsd`: find the first `xs:schema`/`xsd:schema`
node, parse it, build the name index and resolve the references. -/
def parseXsdCore : List XmlNode → Nat → Option XsdNode × Nat
  | [], c => (none, c)
  | x :: rest, c =>
    if isSchemaName (getNodeName x) then
      match parseNode x "" c with
      | (some root, c2) => (some (resolveRefs (buildNameIndex root []) root), c2)
      | (none, c2) => (none, c2)
    else parseXsdCore rest c

/-- Source `parseXsd` with the process-global `idCounter` made explicit: the function
resets the counter to 0 on entry, so the incoming value is ignored; a thrown
tokenizer exception is caught and turned into `null`. -/
def parseXsdWithCounter (e : Except String (List XmlNode)) (_idCounter : Nat) :
    Option XsdNode × Nat :=
  match e with
  | .error _ => (none, 0)
  | .ok parsed => if parsed.isEmpty then (none, 0) else parseXsdCore parsed 0

/-- Source `parseXsd`: optional root node, `none` on a tokenizer error or when no
schema element is present among the top-level nodes. -/
def parseXsd (e : Except String (List XmlNode)) : Option XsdNode :=
  (parseXsdWithCounter e 0).1

mutual
/-- Source `flattenNodes`: the node followed by the flattening of each child in
order (preorder traversal). -/
def flattenNodes : XsdNode → List XsdNode
  | .mk d ch => .mk d ch :: flattenList ch

def flattenList : List XsdNode → List XsdNode
  | [] => []
  | n :: rest => flattenNodes n ++ flattenList rest
end

/-- Source `findNodeByXpath`: linear scan of the flattened traversal for the first
node with the requested xpath. -/
def findNodeByXpath (root : XsdNode) (xpath : String) : Option XsdNode :=
  (flattenNodes root).find? (fun n => n.xpath = xpath)

/-- A throwaway node so concrete trees can be addressed totally. -/
def defaultXsdNode : XsdNode :=
  .mk { id := "", name := "", type := "", xpath := "", attributes := []
        documentation := none, isRef := false, refName := none, refTargetXpath := none } []

/-- The root of a successful parse (used to state closed concrete facts). -/
def theRoot (e : Except String (List XmlNode)) : XsdNode :=
  (parseXsd e).getD defaultXsdNode

/-- The i-th node of the flattened parse result. -/
def nodeAt (e : Except String (List XmlNode)) (i : Nat) : XsdNode :=
  (flattenNodes (theRoot e)).getD i defaultXsdNode

/-- The xpath list of a parse result. -/
def pathsOfOpt : Option XsdNode → List String
  | some root => (flattenNodes root).map XsdNode.xpath
  | none => []

/-! ### Dependency extractor and role classifier (xsdDependencyParser) -/

/-- Case-insensitive literal match (the pattern is supplied lowercase, as in
the `/i` regexes); returns the rest of the input on success. -/
def ciMatch : List Char → List Char → Option (List Char)
  | [], cs => some cs
  | _ :: _, [] => none
  | p :: ps, c :: cs => if c.toLower = p then ciMatch ps cs else none

/-- The lazy tail `([^>]*?)(?:\/>|>)` of the import/include regexes: capture up
to the first `>`, excluding a `/` sitting immediately before it, and consume
the closing delimiter. -/
def captureTo : List Char → Option (List Char × List Char)
  | [] => none
  | '/' :: '>' :: rest => some ([], rest)
  | '>' :: rest => some ([], rest)
  | c :: rest =>
    match captureTo rest with
    | some (g, r) => some (c :: g, r)
    | none => none

/-- Pattern `<(?:xs|xsd):<tag>` case-insensitively, with the regex's alternation
order. -/
def matchTagStart (tag : String) (cs : List Char) : Option (List Char) :=
  match ciMatch ("<xs:" ++ tag).data cs with
  | some rest => some rest
  | none => ciMatch ("<xsd:" ++ tag).data cs

/-- One attempted match of `/<(?:xs|xsd):<tag>\s+([^>]*?)(?:\/>|>)/i` at the
current position: returns the captured attribute text and the rest of the
input after the consumed tag. -/
def matchDepTagAt (tag : String) (cs : List Char) : Option (List Char × List Char) :=
  match matchTagStart tag cs with
  | none => none
  | some rest =>
    match rest with
    | [] => none
    | c :: _ => if isJsSpace c then captureTo (dropJsSpaces rest) else none

/-- The `regex.exec` loop with the `g` flag: scan left to right, restarting
after each consumed match; the fuel argument (instantiated with the input
length) bounds the recursion, and every step consumes at least one
character. -/
def scanDepTagsAux (tag : String) : Nat → List Char → List (List Char)
  | 0, _ => []
  | _ + 1, [] => []
  | fuel + 1, c :: rest =>
    match matchDepTagAt tag (c :: rest) with
    | some (attrs, after) => attrs :: scanDepTagsAux tag fuel after
    | none => scanDepTagsAux tag fuel rest

def scanDepTags (tag : String) (s : String) : List (List Char) :=
  scanDepTagsAux tag s.data.length s.data

def isQuoteChar (c : Char) : Bool :=
  c = '"' ∨ c = '\x27'

/-- Greedy `[^"']+` run: the maximal quote-free run and the rest. -/
def takeNonQuote : List Char → List Char × List Char
  | [] => ([], [])
  | c :: rest =>
    if isQuoteChar c then ([], c :: rest)
    else
      let (run, rst) := takeNonQuote rest
      (c :: run, rst)

/-- One attempted match of `` `<name>\s*=\s*["']([^"']+)["']` `` (the pattern
name supplied lowercase) at the current position: the captured value and the
rest after the closing quote. -/
def matchAttrAt (nameLower : List Char) (cs : List Char) : Option (List Char × List Char) :=
  match ciMatch nameLower cs with
  | none => none
  | some r1 =>
    match dropJsSpaces r1 with
    | '=' :: r3 =>
      match dropJsSpaces r3 with
      | q :: r5 =>
        if isQuoteChar q then
          match takeNonQuote r5 with
          | ([], _) => none
          | (v, rest1) =>
            match rest1 with
            | q2 :: r6 => if isQuoteChar q2 then some (v, r6) else none
            | [] => none
        else none
      | [] => none
    | _ => none

/-- Source `extractAttribute`: first (leftmost) match of the attribute pattern inside
the captured attribute text; `null` when there is none. -/
def extractAttrAux (nameLower : List Char) : Nat → List Char → Option String
  | 0, _ => none
  | _ + 1, [] => none
  | fuel + 1, c :: rest =>
    match matchAttrAt nameLower (c :: rest) with
    | some (v, _) => some ⟨v⟩
    | none => extractAttrAux nameLower fuel rest

def extractAttribute (attributeString : List Char) (nameLower : String) : Option String :=
  extractAttrAux nameLower.data attributeString.length attributeString

/-- Kind `'import' | 'include'` (the `type` field of a dependency). -/
inductive DepKind where
  | imp
  | inc
deriving DecidableEq

/-- Source `XsdDependency`; the source's `namespace` field is called `ns` here
(`namespace` is reserved in Lean). -/
structure XsdDependency where
  type : DepKind
  schemaLocation : String
  ns : Option String
deriving DecidableEq

/-- The body of the `while` loop over matched `xs:import` tags: keep entries
that carry a `schemaLocation`; copy the optional `namespace`. -/
def impLoop : List (List Char) → List XsdDependency
  | [] => []
  | attrs :: rest =>
    match extractAttribute attrs "schemalocation" with
    | some sl => { type := .imp, schemaLocation := sl, ns := extractAttribute attrs "namespace" } :: impLoop rest
    | none => impLoop rest

/-- The body of the `while` loop over matched `xs:include` tags. -/
def incLoop : List (List Char) → List XsdDependency
  | [] => []
  | attrs :: rest =>
    match extractAttribute attrs "schemalocation" with
    | some sl => { type := .inc, schemaLocation := sl, ns := none } :: incLoop rest
    | none => incLoop rest

/-- Source `parseXsdDependencies`: all import tags first, then all include tags, each
group in source order. -/
def parseXsdDependencies (xsdContent : String) : List XsdDependency :=
  impLoop (scanDepTags "import" xsdContent) ++ incLoop (scanDepTags "include" xsdContent)

/-- Source `extractFilename`: the final `/`-separated segment of a schemaLocation. -/
def extractFilename (schemaLocation : String) : String :=
  ⟨(splitOnChar '/' schemaLocation.data).getLastD []⟩

/-- A (filename, content) pair of the role classifier's input set. -/
structure SchemaFile where
  filename : String
  content : String
deriving DecidableEq

/-- Does a dependency point at the given filename? -/
def depMatchesFile (filename : String) (d : XsdDependency) : Bool :=
  extractFilename d.schemaLocation = filename

/-- The first loop of `determineSchemaRole`: `(referencesOthers, isReferenced)`
— the target's own dependency list is non-empty / some other file has a
dependency whose extracted filename equals the target. -/
def roleFlags (filename : String) : List SchemaFile → Bool × Bool
  | [] => (false, false)
  | f :: rest =>
    let (ro, ir) := roleFlags filename rest
    if f.filename = filename then
      (!(parseXsdDependencies f.content).isEmpty || ro, ir)
    else
      (ro, (parseXsdDependencies f.content).any (depMatchesFile filename) || ir)

/-- The second loop of `determineSchemaRole`: the first other file's first
dependency on the target, in set iteration order. -/
def findReferencingDep (filename : String) : List SchemaFile → Option XsdDependency
  | [] => none
  | f :: rest =>
    if f.filename ≠ filename then
      match (parseXsdDependencies f.content).find? (depMatchesFile filename) with
      | some d => some d
      | none => findReferencingDep filename rest
    else findReferencingDep filename rest

inductive SchemaRole where
  | master
  | imported
  | included
  | standalone
deriving DecidableEq

/-- Source `determineSchemaRole`. -/
def determineSchemaRole (filename : String) (allFiles : List SchemaFile) : SchemaRole :=
  let flags := roleFlags filename allFiles
  let referencesOthers := flags.1
  let isReferenced := flags.2
  if referencesOthers && !isReferenced then .master
  else if isReferenced then
    match findReferencingDep filename allFiles with
    | some d => if d.type = .imp then .imported else .included
    | none => .included
  else .standalone

/-! ### Upload-side duplicate (SchemaGroupUpload.tsx) -/

/-- The combined tag opening `<(?:xs|xsd):(?:import|include)` of the upload
component's single regex, in alternation order. -/
def combinedTagStart (cs : List Char) : Option (List Char) :=
  match ciMatch "<xs:import".data cs with
  | some r => some r
  | none =>
    match ciMatch "<xs:include".data cs with
    | some r => some r
    | none =>
      match ciMatch "<xsd:import".data cs with
      | some r => some r
      | none => ciMatch "<xsd:include".data cs

/-- Model of `takeWhile (· ≠ '>')`: the span the greedy `[^>]*` may cover. -/
def takeNonGt : List Char → List Char
  | [] => []
  | c :: rest => if c = '>' then [] else c :: takeNonGt rest

/-- Greedy backtracking of `\s+[^>]*` followed by the attribute pattern: the
attribute match is attempted at offsets descending from the first `>` down to
offset 1 (at least one whitespace character must precede it). -/
def tryAttrDesc (nameLower : List Char) : Nat → List Char → Option (List Char × List Char)
  | 0, _ => none
  | p + 1, rest =>
    match matchAttrAt nameLower (dropChars (p + 1) rest) with
    | some (v, after) => some (v, after)
    | none => tryAttrDesc nameLower p rest

/-- One attempted match of the upload component's combined regex
`/<(?:xs|xsd):(?:import|include)\s+[^>]*schemaLocation\s*=\s*["']([^"']+)["']/i`
at the current position. -/
def matchCombinedAt (cs : List Char) : Option (List Char × List Char) :=
  match combinedTagStart cs with
  | none => none
  | some rest =>
    match rest with
    | [] => none
    | c :: _ =>
      if isJsSpace c then tryAttrDesc "schemalocation".data (takeNonGt rest).length rest
      else none

/-- Source `extractDependencies`: scan for combined matches and map each captured
schemaLocation to its final path segment, falling back to the whole value when
that segment is empty (`split('/').pop() || schemaLocation`). -/
def extractDepsAux : Nat → List Char → List String
  | 0, _ => []
  | _ + 1, [] => []
  | fuel + 1, c :: rest =>
    match matchCombinedAt (c :: rest) with
    | some (v, after) =>
      (let lastPart := (splitOnChar '/' v).getLastD []
       if lastPart.isEmpty then (⟨v⟩ : String) else ⟨lastPart⟩) :: extractDepsAux fuel after
    | none => extractDepsAux fuel rest

def extractDependencies (content : String) : List String :=
  extractDepsAux content.data.length content.data

/-- An upload-side file: its name and its pre-extracted dependency list. -/
structure UploadedFile where
  filename : String
  dependencies : List String
deriving DecidableEq

/-- Source `determineRole` of SchemaGroupUpload.tsx (the duplicated role inference):
note that the referenced branch always reports `imported`. -/
def determineRole (file : UploadedFile) (allFiles : List UploadedFile) : SchemaRole :=
  let isReferenced :=
    allFiles.any (fun f => f.filename ≠ file.filename && f.dependencies.contains file.filename)
  let hasReferences := !file.dependencies.isEmpty
  if hasReferences && !isReferenced then .master
  else if isReferenced then .imported
  else if allFiles.length = 1 then .standalone
  else .standalone

/-! ### Derived notions used by the claim statements -/

/-- The name field formula actually implemented by `parseNode`:
`attributes['name'] || attributes['ref'] || ''`, and then
`nameAttr || nodeName.replace(/^xs:|^xsd:/, '')`. -/
def nameFormula (attrs : List (String × String)) (tag : String) : String :=
  match truthyAttr attrs "name" with
  | some v => v
  | none =>
    match truthyAttr attrs "ref" with
    | some v => v
    | none => stripNs tag

/-- Path-invariant of a built subtree: every node's child has the parent's
xpath extended by `/` plus a raw tag whose unprefixed form is the child's
kind, plus the `[@name='v']` suffix exactly when the child carries a truthy
`name`/`ref` attribute. -/
def pathsOkAt (n : XsdNode) : Prop :=
  ∀ m ∈ flattenNodes n, ∀ cnode ∈ m.children,
    ∃ tag : String, stripNs tag = cnode.type ∧
      cnode.xpath = m.xpath ++ "/" ++ tag ++ xpathSuffix cnode.attributes

/-- A definition node registered under index key `K`: it carries a truthy
`name` attribute, is not itself a reference, and its `kind:name` key is `K`. -/
def isDefNodeKey (K : String) (n : XsdNode) : Bool :=
  match truthyAttr n.attributes "name" with
  | some nm => !n.isRef && typeKeyStr n nm = K
  | none => false

/-- Flag `referencesOthers` of `determineSchemaRole`, written as the claim states
it: the target's own dependency list is non-empty. -/
def refsOthersSpec (filename : String) (files : List SchemaFile) : Bool :=
  files.any (fun f => f.filename = filename && !(parseXsdDependencies f.content).isEmpty)

/-- Flag `isReferenced` of `determineSchemaRole`, written as the claim states it:
some other file has a dependency whose extracted filename is the target. -/
def isReferencedSpec (filename : String) (files : List SchemaFile) : Bool :=
  files.any (fun f =>
    f.filename ≠ filename && (parseXsdDependencies f.content).any (depMatchesFile filename))

/-- The first matching dependency in set iteration order, as the claim states
it. -/
def firstRefDepSpec (filename : String) (files : List SchemaFile) : Option XsdDependency :=
  files.findSome? (fun f =>
    if f.filename ≠ filename then (parseXsdDependencies f.content).find? (depMatchesFile filename)
    else none)

/-- The role classifier exactly as the claim describes it. -/
def claimRoleSpec (filename : String) (files : List SchemaFile) : SchemaRole :=
  if refsOthersSpec filename files && !isReferencedSpec filename files then .master
  else if isReferencedSpec filename files then
    match firstRefDepSpec filename files with
    | some d => if d.type = .imp then .imported else .included
    | none => .included
  else .standalone

/-! ### Concrete inputs for the claims -/

-- C1/C8: the nested element example from the spec.
def exC1 : XmlNode :=
  .elem "xs:schema" [] [
    .elem "xs:complexType" [("name", "Bar")] [
      .elem "xs:sequence" [] [
        .elem "xs:element" [("name", "Foo"), ("minOccurs", "0")] []]]]

-- C2 witness: a single definition and a reference to it (a forward
-- reference: the ref precedes its definition in document order).
def exC2 : XmlNode :=
  .elem "xs:schema" [] [
    .elem "xs:element" [("ref", "Foo")] [],
    .elem "xs:element" [("name", "Foo")] []]

-- C2 counterexample: two same-kind definitions named Foo at different
-- positions; the reference resolves to the later one in document order.
def exC2dup : XmlNode :=
  .elem "xs:schema" [] [
    .elem "xs:element" [("ref", "Foo")] [],
    .elem "xs:element" [("name", "Foo")] [],
    .elem "xs:complexType" [("name", "C")] [
      .elem "xs:sequence" [] [
        .elem "xs:element" [("name", "Foo")] []]]]

-- C6 counterexample: a node with neither name nor ref attribute.
def exC6 : XmlNode :=
  .elem "xs:schema" [] [
    .elem "xs:sequence" [] []]

-- C9 counterexample: a reference sibling placed before the definition shares
-- the definition's computed path and shadows it in the linear scan.
def exC9 : XmlNode :=
  .elem "xs:schema" [] [
    .elem "xs:element" [("ref", "Foo")] [],
    .elem "xs:element" [("name", "Foo")] []]

-- C9 witness: a named element whose computed path is unique in the tree.
def exC9w : XmlNode :=
  .elem "xs:schema" [] [
    .elem "xs:element" [("name", "Foo")] []]

-- C3/C4/C10 file contents.
def cImportB : String := "<xs:schema><xs:import schemaLocation=\"B.xsd\"/></xs:schema>"
def cImportC : String := "<xs:schema><xs:import schemaLocation=\"C.xsd\"/></xs:schema>"
def cImportA : String := "<xs:schema><xs:import schemaLocation=\"A.xsd\"/></xs:schema>"
def cIncludeB : String := "<xs:schema><xs:include schemaLocation=\"B.xsd\"/></xs:schema>"
def cPlain : String := "<xs:schema></xs:schema>"

def exPairC3 : List SchemaFile := [⟨"A.xsd", cImportB⟩, ⟨"B.xsd", cPlain⟩]

def exCycle3 : List SchemaFile :=
  [⟨"A.xsd", cImportB⟩, ⟨"B.xsd", cImportC⟩, ⟨"C.xsd", cImportA⟩]

def exCycle2 : List SchemaFile := [⟨"A.xsd", cImportB⟩, ⟨"B.xsd", cImportA⟩]

-- C10: the same include-based pair given to both classifiers.
def exIncPairFiles : List SchemaFile := [⟨"A.xsd", cIncludeB⟩, ⟨"B.xsd", cPlain⟩]

def exUpA : UploadedFile := ⟨"A.xsd", extractDependencies cIncludeB⟩
def exUpB : UploadedFile := ⟨"B.xsd", extractDependencies cPlain⟩

example :
    pathsOfOpt (parseXsd (.ok [exC1])) =
      ["/xs:schema",
       "/xs:schema/xs:complexType[@name=\x27Bar\x27]",
       "/xs:schema/xs:complexType[@name=\x27Bar\x27]/xs:sequence",
       "/xs:schema/xs:complexType[@name=\x27Bar\x27]/xs:sequence/xs:element[@name=\x27Foo\x27]"] := by
  rfl

example :
    parseXsdDependencies "<xs:import namespace=\"urn:x\" schemaLocation=\"other.xsd\"/>" =
      [{ type := .imp, schemaLocation := "other.xsd", ns := some "urn:x" }] := by rfl

example : parseXsdDependencies "<xs:import namespace=\"urn:x\"/>" = [] := by rfl

example : parseXsdDependencies "<XS:IMPORT SCHEMALOCATION=\x27x.xsd\x27>" =
    [{ type := .imp, schemaLocation := "x.xsd", ns := none }] := by rfl

example :
    parseXsdDependencies
        "<xs:schema><xs:include schemaLocation=\"a/b.xsd\"/><xs:import schemaLocation=\"c.xsd\"/></xs:schema>" =
      [{ type := .imp, schemaLocation := "c.xsd", ns := none },
       { type := .inc, schemaLocation := "a/b.xsd", ns := none }] := by rfl

example : extractFilename "a/b.xsd" = "b.xsd" := by rfl

example : extractDependencies "<xs:schema><xs:include schemaLocation=\"dir/B.xsd\"/></xs:schema>" =
    ["B.xsd"] := by rfl

example :
    determineSchemaRole "A.xsd"
      [⟨"A.xsd", "<xs:schema><xs:import schemaLocation=\"B.xsd\"/></xs:schema>"⟩,
       ⟨"B.xsd", "<xs:schema></xs:schema>"⟩] = .master := by rfl

example :
    determineSchemaRole "B.xsd"
      [⟨"A.xsd", "<xs:schema><xs:import schemaLocation=\"B.xsd\"/></xs:schema>"⟩,
       ⟨"B.xsd", "<xs:schema></xs:schema>"⟩] = .imported := by rfl

/-! ### Helper lemmas: the name index as a fold over the preorder traversal -/

theorem mapGet_mapSet_same (m : NameIndex) (k : String) (v : XsdNode) :
    mapGet (mapSet m k v) k = some v := by
  induction m with
  | nil => simp [mapSet, mapGet]
  | cons p rest ih =>
    obtain ⟨k0, v0⟩ := p
    by_cases h : k0 = k
    · simp [mapSet, h, mapGet]
    · simp [mapSet, h, mapGet, ih]

theorem mapGet_mapSet_ne (m : NameIndex) (k key : String) (v : XsdNode) (h : key ≠ k) :
    mapGet (mapSet m k v) key = mapGet m key := by
  have hk : ¬(k = key) := fun hh => h hh.symm
  induction m with
  | nil => simp [mapSet, mapGet, hk]
  | cons p rest ih =>
    obtain ⟨k0, v0⟩ := p
    by_cases h0 : k0 = k
    · subst h0
      simp [mapSet, mapGet, hk]
    · simp [mapSet, mapGet, h0, ih]

mutual
theorem buildNameIndex_eq_foldl :
    ∀ (n : XsdNode) (m : NameIndex), buildNameIndex n m = (flattenNodes n).foldl indexStep m
  | .mk d ch, m => by
    simp only [buildNameIndex, flattenNodes, List.foldl_cons]
    exact buildNameIndexList_eq_foldl ch _

theorem buildNameIndexList_eq_foldl :
    ∀ (l : List XsdNode) (m : NameIndex),
      buildNameIndexList l m = (flattenList l).foldl indexStep m
  | [], m => rfl
  | n :: rest, m => by
    simp only [buildNameIndexList, flattenList, List.foldl_append]
    rw [buildNameIndexList_eq_foldl rest, buildNameIndex_eq_foldl n]
end

theorem indexStep_preserves {m : NameIndex} {K : String} {d : XsdNode} (n : XsdNode)
    (h : mapGet m K = some d) (hn : isDefNodeKey K n = false) :
    mapGet (indexStep m n) K = some d := by
  unfold isDefNodeKey at hn
  unfold indexStep
  cases htr : truthyAttr n.attributes "name" with
  | none => simpa using h
  | some nm =>
    rw [htr] at hn
    by_cases hr : n.isRef
    · simpa [hr] using h
    · have hrf : n.isRef = false := by
        cases hRR : n.isRef
        · rfl
        · exact absurd hRR hr
      have hk : typeKeyStr n nm ≠ K := by
        intro hKK
        simp [hrf, hKK] at hn
      have h1 : mapGet (mapSet m (typeKeyStr n nm) n) K = some d := by
        rw [mapGet_mapSet_ne _ _ _ _ (fun hh => hk hh.symm)]
        exact h
      by_cases hnmK : nm = K
      · subst hnmK
        have hhas : mapHas (mapSet m (typeKeyStr n nm) n) nm = true := by
          unfold mapHas
          rw [h1]
          rfl
        simp [hrf, hhas, h1]
      · have hhasd : mapHas (mapSet m (typeKeyStr n nm) n) nm = true ∨
            mapHas (mapSet m (typeKeyStr n nm) n) nm = false := by
          cases mapHas (mapSet m (typeKeyStr n nm) n) nm
          · exact Or.inr rfl
          · exact Or.inl rfl
        rcases hhasd with hhas | hhas
        · simp [hrf, hhas, h1]
        · simp only [hrf, Bool.not_false, hhas, if_true, Bool.false_eq_true, if_false]
          rw [mapGet_mapSet_ne _ _ _ _ (fun hh => hnmK hh.symm)]
          exact h1

theorem indexStep_hit {K : String} (m : NameIndex) (n : XsdNode)
    (hn : isDefNodeKey K n = true) : mapGet (indexStep m n) K = some n := by
  unfold isDefNodeKey at hn
  unfold indexStep
  cases htr : truthyAttr n.attributes "name" with
  | none => rw [htr] at hn; cases hn
  | some nm =>
    rw [htr] at hn
    have hr : n.isRef = false := by
      cases hR : n.isRef
      · rfl
      · rw [hR] at hn; simp at hn
    have hk : typeKeyStr n nm = K := by
      rw [hr] at hn
      simpa using hn
    have h1 : mapGet (mapSet m (typeKeyStr n nm) n) K = some n := by
      rw [hk]; exact mapGet_mapSet_same m K n
    by_cases hnmK : nm = K
    · subst hnmK
      have hhas : mapHas (mapSet m (typeKeyStr n nm) n) nm = true := by
        unfold mapHas
        rw [h1]
        rfl
      simp [hr, hhas, h1]
    · have hhasd : mapHas (mapSet m (typeKeyStr n nm) n) nm = true ∨
          mapHas (mapSet m (typeKeyStr n nm) n) nm = false := by
        cases mapHas (mapSet m (typeKeyStr n nm) n) nm
        · exact Or.inr rfl
        · exact Or.inl rfl
      rcases hhasd with hhas | hhas
      · simp [hr, hhas, h1]
      · simp only [hr, Bool.not_false, hhas, if_true, Bool.false_eq_true, if_false]
        rw [mapGet_mapSet_ne _ _ _ _ (fun hh => hnmK hh.symm)]
        exact h1

theorem foldl_indexStep_preserves {K : String} {d : XsdNode} :
    ∀ (l : List XsdNode) (m : NameIndex), mapGet m K = some d →
      (∀ n ∈ l, isDefNodeKey K n = false) → mapGet (l.foldl indexStep m) K = some d
  | [], m, h, _ => h
  | n :: rest, m, h, hall => by
    rw [List.foldl_cons]
    exact foldl_indexStep_preserves rest _
      (indexStep_preserves n h (hall n (List.mem_cons_self n rest)))
      (fun x hx => hall x (List.mem_cons_of_mem n hx))

theorem last_witness_split {α : Type} (p : α → Bool) :
    ∀ l : List α, (∃ x ∈ l, p x = true) →
      ∃ l1 x l2, l = l1 ++ x :: l2 ∧ p x = true ∧ ∀ y ∈ l2, p y = false := by
  intro l
  induction l with
  | nil => rintro ⟨x, hx, _⟩; cases hx
  | cons a t ih =>
    intro hex
    by_cases ht : ∃ x ∈ t, p x = true
    · obtain ⟨l1, x, l2, hsplit, hx, hrest⟩ := ih ht
      exact ⟨a :: l1, x, l2, by rw [hsplit]; rfl, hx, hrest⟩
    · obtain ⟨x, hmem, hx⟩ := hex
      rcases List.mem_cons.mp hmem with hxa | hxt
      · subst hxa
        refine ⟨[], x, t, rfl, hx, ?_⟩
        intro y hy
        cases hpy : p y
        · rfl
        · exact absurd ⟨y, hy, hpy⟩ ht
      · exact absurd ⟨x, hxt, hx⟩ ht

theorem index_complete {K : String} {t : XsdNode}
    (h : ∃ x ∈ flattenNodes t, isDefNodeKey K x = true) :
    ∃ x, x ∈ flattenNodes t ∧ isDefNodeKey K x = true ∧
      mapGet (buildNameIndex t []) K = some x := by
  obtain ⟨l1, x, l2, hsplit, hx, hrest⟩ := last_witness_split (isDefNodeKey K) _ h
  refine ⟨x, ?_, hx, ?_⟩
  · rw [hsplit]
    exact List.mem_append_right l1 (List.mem_cons_self x l2)
  · rw [buildNameIndex_eq_foldl, hsplit, List.foldl_append, List.foldl_cons]
    exact foldl_indexStep_preserves l2 _ (indexStep_hit _ x hx) hrest

/-! ### Helper lemmas: `resolveRefs` preserves everything except the target -/

theorem resolveData_keeps (idx : NameIndex) (d : NodeData) :
    ∃ rt, resolveData idx d = { d with refTargetXpath := rt } := by
  obtain ⟨i, nm, ty, xp, attrs, doc, ir, rn0, rt0⟩ := d
  cases ir with
  | false =>
    cases rn0 with
    | none => exact ⟨rt0, rfl⟩
    | some rn => exact ⟨rt0, rfl⟩
  | true =>
    cases rn0 with
    | none => exact ⟨rt0, rfl⟩
    | some rn =>
      by_cases hrn : rn = ""
      · exact ⟨rt0, by simp [resolveData, hrn]⟩
      · cases hL : resolveLookup idx ty (stripRefName rn) with
        | none => exact ⟨rt0, by simp [resolveData, hrn, hL]⟩
        | some tgt => exact ⟨some tgt.xpath, by simp [resolveData, hrn, hL]⟩

theorem resolveRefs_data (idx : NameIndex) (t : XsdNode) :
    (resolveRefs idx t).data = resolveData idx t.data := by
  cases t; rfl

theorem resolveRefs_xpath (idx : NameIndex) (t : XsdNode) :
    (resolveRefs idx t).xpath = t.xpath := by
  obtain ⟨rt, h⟩ := resolveData_keeps idx t.data
  rw [XsdNode.xpath, resolveRefs_data, h]; rfl

theorem resolveRefs_type (idx : NameIndex) (t : XsdNode) :
    (resolveRefs idx t).type = t.type := by
  obtain ⟨rt, h⟩ := resolveData_keeps idx t.data
  rw [XsdNode.type, resolveRefs_data, h]; rfl

theorem resolveRefs_attributes (idx : NameIndex) (t : XsdNode) :
    (resolveRefs idx t).attributes = t.attributes := by
  obtain ⟨rt, h⟩ := resolveData_keeps idx t.data
  rw [XsdNode.attributes, resolveRefs_data, h]; rfl

theorem resolveRefs_isRef (idx : NameIndex) (t : XsdNode) :
    (resolveRefs idx t).isRef = t.isRef := by
  obtain ⟨rt, h⟩ := resolveData_keeps idx t.data
  rw [XsdNode.isRef, resolveRefs_data, h]; rfl

theorem resolveRefs_refName (idx : NameIndex) (t : XsdNode) :
    (resolveRefs idx t).refName = t.refName := by
  obtain ⟨rt, h⟩ := resolveData_keeps idx t.data
  rw [XsdNode.refName, resolveRefs_data, h]; rfl

mutual
theorem flattenNodes_resolve (idx : NameIndex) :
    ∀ t : XsdNode, flattenNodes (resolveRefs idx t) = (flattenNodes t).map (resolveRefs idx)
  | .mk d ch => by
    simp only [resolveRefs, flattenNodes, List.map_cons]
    rw [flattenList_resolve idx ch]

theorem flattenList_resolve (idx : NameIndex) :
    ∀ l : List XsdNode, flattenList (resolveRefsList idx l) = (flattenList l).map (resolveRefs idx)
  | [] => rfl
  | n :: rest => by
    simp only [resolveRefsList, flattenList, List.map_append]
    rw [flattenNodes_resolve idx n, flattenList_resolve idx rest]
end

/-! ### Helper lemmas: string concatenation and traversal membership -/

theorem strAppendEmpty (s : String) : s ++ "" = s := by
  cases s with
  | mk l => exact congrArg String.mk (List.append_nil l)

theorem strAppendAssoc (a b c : String) : a ++ b ++ c = a ++ (b ++ c) := by
  cases a with
  | mk la =>
    cases b with
    | mk lb =>
      cases c with
      | mk lc => exact congrArg String.mk (List.append_assoc la lb lc)

theorem truthyAttr_ne_empty {attrs : List (String × String)} {k v : String}
    (h : truthyAttr attrs k = some v) : v ≠ "" := by
  unfold truthyAttr at h
  cases hL : lookupAttr attrs k with
  | none => rw [hL] at h; cases h
  | some w =>
    rw [hL] at h
    by_cases hw : w = ""
    · simp [hw] at h
    · simp [hw] at h
      exact h ▸ hw

theorem self_mem_flattenNodes : ∀ n : XsdNode, n ∈ flattenNodes n
  | .mk d ch => by
    rw [flattenNodes]
    exact List.mem_cons_self _ _

theorem mem_flattenList {m : XsdNode} :
    ∀ {l : List XsdNode}, m ∈ flattenList l → ∃ k ∈ l, m ∈ flattenNodes k := by
  intro l
  induction l with
  | nil => intro h; cases h
  | cons a t ih =>
    intro h
    rw [flattenList] at h
    rcases List.mem_append.mp h with h1 | h2
    · exact ⟨a, List.mem_cons_self a t, h1⟩
    · obtain ⟨k, hk, hmk⟩ := ih h2
      exact ⟨k, List.mem_cons_of_mem a hk, hmk⟩

/-- The xpath built by `parseNode`, rewritten with the `xpathSuffix`
abbreviation. -/
theorem xpath_formula (p nn : String) (attrs : List (String × String)) :
    (if identAttr attrs = "" then p ++ "/" ++ nn
     else p ++ "/" ++ nn ++ "[@name=\x27" ++ identAttr attrs ++ "\x27]")
    = p ++ "/" ++ nn ++ xpathSuffix attrs := by
  unfold xpathSuffix
  by_cases hid : identAttr attrs = ""
  · rw [if_pos hid, if_pos hid, strAppendEmpty]
  · rw [if_neg hid, if_neg hid]
    simp [strAppendAssoc]

/-! ### Helper lemmas: the shape of every parsed node -/

mutual
theorem parseNode_shape :
    ∀ (x : XmlNode) (p : String) (c : Nat) (n : XsdNode) (c2 : Nat),
      parseNode x p c = (some n, c2) →
      n.xpath = p ++ "/" ++ getNodeName x ++ xpathSuffix (getAttributes x) ∧
      n.type = stripNs (getNodeName x) ∧
      n.attributes = getAttributes x ∧
      n.name = nameFormula (getAttributes x) (getNodeName x) ∧
      pathsOkAt n
  | .text _, p, c, n, c2 => by
    intro h
    rw [parseNode] at h
    injection h with h1 _
    exact Option.noConfusion h1
  | .comment _, p, c, n, c2 => by
    intro h
    rw [parseNode] at h
    injection h with h1 _
    exact Option.noConfusion h1
  | .elem tag attrs ch, p, c, n, c2 => by
    intro h
    simp only [parseNode] at h
    split at h
    · injection h with h1 _
      exact Option.noConfusion h1
    · cases hpc : parseChildren ch
          (if identAttr (getAttributes (XmlNode.elem tag attrs ch)) = "" then
            p ++ "/" ++ getNodeName (XmlNode.elem tag attrs ch)
           else
            p ++ "/" ++ getNodeName (XmlNode.elem tag attrs ch) ++ "[@name=\x27" ++
              identAttr (getAttributes (XmlNode.elem tag attrs ch)) ++ "\x27]") (c + 1) with
      | mk children c3 =>
        rw [hpc] at h
        injection h with h1 h2
        injection h1 with h1
        subst h1
        have hshape := parseChildren_shape ch _ (c + 1) children c3 hpc
        refine ⟨?_, rfl, rfl, ?_, ?_⟩
        · exact xpath_formula p (getNodeName (XmlNode.elem tag attrs ch))
            (getAttributes (XmlNode.elem tag attrs ch))
        · show (if identAttr (getAttributes (XmlNode.elem tag attrs ch)) = "" then
              stripNs (getNodeName (XmlNode.elem tag attrs ch))
            else identAttr (getAttributes (XmlNode.elem tag attrs ch))) = _
          unfold nameFormula identAttr
          cases htn : truthyAttr (getAttributes (XmlNode.elem tag attrs ch)) "name" with
          | some v => simp [truthyAttr_ne_empty htn]
          | none =>
            cases htr : truthyAttr (getAttributes (XmlNode.elem tag attrs ch)) "ref" with
            | some v => simp [truthyAttr_ne_empty htr]
            | none => simp
        · intro m hm cnode hc
          rw [flattenNodes] at hm
          rcases List.mem_cons.mp hm with hm1 | hm2
          · subst hm1
            have hc' : cnode ∈ children := hc
            obtain ⟨⟨tagc, htc, hxc⟩, _⟩ := hshape cnode hc'
            exact ⟨tagc, htc, hxc⟩
          · obtain ⟨k, hk, hmk⟩ := mem_flattenList hm2
            obtain ⟨_, hpaths⟩ := hshape k hk
            exact hpaths m hmk cnode hc

theorem parseChildren_shape :
    ∀ (xs : List XmlNode) (xp : String) (c : Nat) (ns : List XsdNode) (c2 : Nat),
      parseChildren xs xp c = (ns, c2) →
      ∀ n ∈ ns,
        (∃ tag : String, stripNs tag = n.type ∧
          n.xpath = xp ++ "/" ++ tag ++ xpathSuffix n.attributes) ∧ pathsOkAt n
  | [], xp, c, ns, c2 => by
    intro h
    rw [parseChildren] at h
    injection h with h1 _
    subst h1
    intro n hn
    cases hn
  | x :: rest, xp, c, ns, c2 => by
    intro h
    rw [parseChildren] at h
    cases hpn : parseNode x xp c with
    | mk o c3 =>
      rw [hpn] at h
      cases o with
      | none =>
        exact parseChildren_shape rest xp c3 ns c2 h
      | some n0 =>
        have h' : (match parseChildren rest xp c3 with
            | (ns1, c31) => (n0 :: ns1, c31)) = (ns, c2) := h
        cases hpc : parseChildren rest xp c3 with
        | mk ns' c4 =>
          rw [hpc] at h'
          have h'' : (n0 :: ns', c4) = (ns, c2) := h'
          injection h'' with h1 h2
          subst h1
          intro n hn
          rcases List.mem_cons.mp hn with hn1 | hn2
          · subst hn1
            obtain ⟨hxp, hty, hattrs, _, hpaths⟩ := parseNode_shape x xp c n c3 hpn
            exact ⟨⟨getNodeName x, hty.symm, by rw [hxp, hattrs]⟩, hpaths⟩
          · exact parseChildren_shape rest xp c3 ns' c4 hpc n hn2
end

theorem resolveRefs_refTarget (idx : NameIndex) (t : XsdNode) (rn : String)
    (hR : t.isRef = true) (hN : t.refName = some rn) (hrn : rn ≠ "") :
    (resolveRefs idx t).refTargetXpath =
      (match resolveLookup idx t.type (stripRefName rn) with
       | some tgt => some tgt.xpath
       | none => t.refTargetXpath) := by
  cases t with
  | mk d ch =>
    obtain ⟨i, nm, ty, xp, attrs, doc, ir, rn0, rt0⟩ := d
    have hR' : ir = true := hR
    have hN' : rn0 = some rn := hN
    subst hR'
    subst hN'
    cases hL : resolveLookup idx ty (stripRefName rn) with
    | none =>
      simp [resolveRefs, resolveData, XsdNode.refTargetXpath, XsdNode.data, XsdNode.type,
        hrn, hL]
    | some tgt =>
      simp [resolveRefs, resolveData, XsdNode.refTargetXpath, XsdNode.data, XsdNode.type,
        hrn, hL]

/-! ### Helper lemmas: `parseXsd` top level -/

theorem strEmptyAppend (s : String) : "" ++ s = s := rfl

theorem resolveRefsList_eq_map (idx : NameIndex) :
    ∀ l : List XsdNode, resolveRefsList idx l = l.map (resolveRefs idx)
  | [] => rfl
  | n :: rest => by
    rw [resolveRefsList, List.map_cons, resolveRefsList_eq_map idx rest]

theorem resolveRefs_children (idx : NameIndex) (t : XsdNode) :
    (resolveRefs idx t).children = t.children.map (resolveRefs idx) := by
  cases t with
  | mk d ch =>
    rw [resolveRefs]
    exact resolveRefsList_eq_map idx ch

theorem parseNode_schema_some (x : XmlNode) (p : String) (c : Nat)
    (h : isSchemaName (getNodeName x) = true) : (parseNode x p c).1.isSome = true := by
  rw [isSchemaName, decide_eq_true_eq] at h
  cases x with
  | text s => simp [getNodeName] at h
  | comment s => simp [getNodeName] at h
  | elem tag attrs ch =>
    simp only [parseNode]
    split
    · rename_i hcond
      rcases h with h | h <;> rw [h] at hcond <;> simp at hcond
    · cases hpc : parseChildren ch
          (if identAttr (getAttributes (XmlNode.elem tag attrs ch)) = "" then
            p ++ "/" ++ getNodeName (XmlNode.elem tag attrs ch)
           else
            p ++ "/" ++ getNodeName (XmlNode.elem tag attrs ch) ++ "[@name=\x27" ++
              identAttr (getAttributes (XmlNode.elem tag attrs ch)) ++ "\x27]") (c + 1) with
      | mk children c3 => simp [hpc]

theorem parseXsdCore_isSome :
    ∀ (l : List XmlNode) (c : Nat),
      (parseXsdCore l c).1.isSome = l.any (fun x => isSchemaName (getNodeName x))
  | [], c => by simp [parseXsdCore]
  | x :: rest, c => by
    rw [parseXsdCore]
    by_cases hs : isSchemaName (getNodeName x) = true
    · cases hpn : parseNode x "" c with
      | mk o c3 =>
        cases o with
        | some root => simp [hs, hpn]
        | none =>
          have hps := parseNode_schema_some x "" c hs
          rw [hpn] at hps
          simp at hps
    · have hs' : isSchemaName (getNodeName x) = false := by
        cases hv : isSchemaName (getNodeName x)
        · rfl
        · exact absurd hv hs
      simp [hs', parseXsdCore_isSome rest c]

theorem parseXsdCore_inv :
    ∀ (l : List XmlNode) (c : Nat) (root : XsdNode) (c2 : Nat),
      parseXsdCore l c = (some root, c2) →
      ∃ x root0, isSchemaName (getNodeName x) = true ∧ parseNode x "" c = (some root0, c2) ∧
        root = resolveRefs (buildNameIndex root0 []) root0
  | [], c, root, c2 => by
    intro h
    rw [parseXsdCore] at h
    injection h with h1 _
    exact Option.noConfusion h1
  | x :: rest, c, root, c2 => by
    intro h
    rw [parseXsdCore] at h
    split at h
    · rename_i hs
      cases hpn : parseNode x "" c with
      | mk o c3 =>
        cases o with
        | some r0 =>
          have h' : (some (resolveRefs (buildNameIndex r0 []) r0), c3) = (some root, c2) := by
            rw [hpn] at h
            exact h
          injection h' with h1 h2
          injection h1 with h1
          subst h2
          exact ⟨x, r0, hs, hpn, h1.symm⟩
        | none =>
          have h' : ((none : Option XsdNode), c3) = (some root, c2) := by
            rw [hpn] at h
            exact h
          injection h' with h1 _
          exact Option.noConfusion h1
    · exact parseXsdCore_inv rest c root c2 h

theorem parseXsd_inv {e : Except String (List XmlNode)} {root : XsdNode}
    (h : parseXsd e = some root) :
    ∃ x root0 c2, isSchemaName (getNodeName x) = true ∧ parseNode x "" 0 = (some root0, c2) ∧
      root = resolveRefs (buildNameIndex root0 []) root0 := by
  unfold parseXsd parseXsdWithCounter at h
  cases e with
  | error msg => simp at h
  | ok parsed =>
    by_cases hemp : parsed.isEmpty
    · simp [hemp] at h
    · simp only [hemp, Bool.false_eq_true, if_false] at h
      cases hcore : parseXsdCore parsed 0 with
      | mk o cc =>
        rw [hcore] at h
        have h' : o = some root := h
        subst h'
        obtain ⟨x, r0, hs, hpn, hroot⟩ := parseXsdCore_inv parsed 0 root cc hcore
        exact ⟨x, r0, cc, hs, hpn, hroot⟩

/-! ### Helper lemmas: path lookup and role classification -/

theorem find_first_unique {n : XsdNode} :
    ∀ l : List XsdNode, n ∈ l → (∀ m ∈ l, m.xpath = n.xpath → m = n) →
      l.find? (fun m => m.xpath = n.xpath) = some n := by
  intro l
  induction l with
  | nil => intro h; cases h
  | cons a t ih =>
    intro hmem huniq
    by_cases ha : a.xpath = n.xpath
    · have haa : a = n := huniq a (List.mem_cons_self a t) ha
      subst haa
      exact List.find?_cons_of_pos _ (by simp)
    · rw [List.find?_cons_of_neg _ (by simp [ha])]
      apply ih
      · rcases List.mem_cons.mp hmem with h1 | h2
        · exact absurd (h1 ▸ rfl) ha
        · exact h2
      · exact fun m hm => huniq m (List.mem_cons_of_mem a hm)

theorem roleFlags_eq (fn : String) :
    ∀ l : List SchemaFile, roleFlags fn l = (refsOthersSpec fn l, isReferencedSpec fn l)
  | [] => rfl
  | f :: rest => by
    rw [roleFlags, roleFlags_eq fn rest]
    unfold refsOthersSpec isReferencedSpec
    rw [List.any_cons, List.any_cons]
    by_cases hf : f.filename = fn
    · simp [hf]
    · simp [hf]

theorem findReferencingDep_eq (fn : String) :
    ∀ l : List SchemaFile, findReferencingDep fn l = firstRefDepSpec fn l
  | [] => rfl
  | f :: rest => by
    rw [findReferencingDep]
    unfold firstRefDepSpec
    rw [List.findSome?_cons]
    by_cases hf : f.filename = fn
    · simp only [hf, ne_eq, not_true_eq_false, if_false]
      rw [findReferencingDep_eq fn rest]
      rfl
    · simp only [ne_eq, hf, not_false_eq_true, if_true]
      cases hfind : (parseXsdDependencies f.content).find? (depMatchesFile fn) with
      | some d => rfl
      | none => rw [findReferencingDep_eq fn rest]; rfl

theorem impLoop_eq :
    ∀ l : List (List Char),
      impLoop l = l.filterMap (fun a => (extractAttribute a "schemalocation").map
        (fun sl => ⟨.imp, sl, extractAttribute a "namespace"⟩))
  | [] => rfl
  | attrs :: rest => by
    rw [impLoop]
    cases hsl : extractAttribute attrs "schemalocation" with
    | some sl => simp [List.filterMap_cons, hsl, impLoop_eq rest]
    | none => simp [List.filterMap_cons, hsl, impLoop_eq rest]

theorem incLoop_eq :
    ∀ l : List (List Char),
      incLoop l = l.filterMap (fun a => (extractAttribute a "schemalocation").map
        (fun sl => ⟨.inc, sl, none⟩))
  | [] => rfl
  | attrs :: rest => by
    rw [incLoop]
    cases hsl : extractAttribute attrs "schemalocation" with
    | some sl => simp [List.filterMap_cons, hsl, incLoop_eq rest]
    | none => simp [List.filterMap_cons, hsl, incLoop_eq rest]

theorem mem_impLoop_type {d : XsdDependency} :
    ∀ {l : List (List Char)}, d ∈ impLoop l → d.type = .imp := by
  intro l
  induction l with
  | nil => intro h; cases h
  | cons attrs rest ih =>
    intro h
    rw [impLoop] at h
    cases hsl : extractAttribute attrs "schemalocation" with
    | some sl =>
      rw [hsl] at h
      rcases List.mem_cons.mp h with h1 | h2
      · rw [h1]
      · exact ih h2
    | none =>
      rw [hsl] at h
      exact ih h

theorem mem_incLoop_ns {d : XsdDependency} :
    ∀ {l : List (List Char)}, d ∈ incLoop l → d.ns = none := by
  intro l
  induction l with
  | nil => intro h; cases h
  | cons attrs rest ih =>
    intro h
    rw [incLoop] at h
    cases hsl : extractAttribute attrs "schemalocation" with
    | some sl =>
      rw [hsl] at h
      rcases List.mem_cons.mp h with h1 | h2
      · rw [h1]
      · exact ih h2
    | none =>
      rw [hsl] at h
      exact ih h

/-- The referenced branch of `determineSchemaRole`: a referenced file is never
classified `master` (nor `standalone`). -/
theorem referenced_role (fn : String) (files : List SchemaFile)
    (h : isReferencedSpec fn files = true) :
    determineSchemaRole fn files = .imported ∨ determineSchemaRole fn files = .included := by
  simp only [determineSchemaRole, roleFlags_eq, h, Bool.not_true, Bool.and_false,
    Bool.false_eq_true, if_false, if_true]
  cases hfd : findReferencingDep fn files with
  | none => right; rfl
  | some d =>
    by_cases hd : d.type = DepKind.imp
    · left; simp [hd]
    · right; simp [hd]

/-- Claim C3: `determineSchemaRole` returns `master` exactly when the target's
own dependency list is non-empty and no other file depends on it; otherwise a
referenced file is classified by the first matching dependency in set
iteration order (`imported` for an import, `included` otherwise, `included`
as fallback), and `standalone` otherwise; in the two-file import example
role(A) = master and role(B) = imported. -/
theorem c3_role_classifier :
    (∀ (fn : String) (files : List SchemaFile),
      determineSchemaRole fn files = claimRoleSpec fn files) ∧
    determineSchemaRole "A.xsd" exPairC3 = .master ∧
    determineSchemaRole "B.xsd" exPairC3 = .imported := by
  refine ⟨?_, rfl, rfl⟩
  intro fn files
  unfold determineSchemaRole claimRoleSpec
  rw [roleFlags_eq, findReferencingDep_eq]

/-- Claim C4: in any file set where every relevant file is referenced by
another (as in import cycles), `determineSchemaRole` never answers `master`;
the file is classified through the referenced branch. -/
theorem c4_cycle_no_master (fn : String) (files : List SchemaFile)
    (h : ∃ f ∈ files, f.filename ≠ fn ∧ ∃ d ∈ parseXsdDependencies f.content,
      extractFilename d.schemaLocation = fn) :
    determineSchemaRole fn files ≠ .master ∧
    (determineSchemaRole fn files = .imported ∨ determineSchemaRole fn files = .included) := by
  have href : isReferencedSpec fn files = true := by
    obtain ⟨f, hf, hne, d, hd, hm⟩ := h
    unfold isReferencedSpec
    rw [List.any_eq_true]
    refine ⟨f, hf, ?_⟩
    rw [Bool.and_eq_true]
    refine ⟨by simp [hne], ?_⟩
    rw [List.any_eq_true]
    exact ⟨d, hd, by simp [depMatchesFile, hm]⟩
  have hrole := referenced_role fn files href
  refine ⟨?_, hrole⟩
  rcases hrole with h1 | h1 <;> rw [h1] <;> intro hc <;> exact SchemaRole.noConfusion hc

/-- Claim C4 witness: the three-file import cycle A→B→C→A and the two-file
cycle A↔B, with no file classified `master`. -/
theorem c4_cycle_no_master_witness :
    ((∃ f ∈ exCycle3, f.filename ≠ "A.xsd" ∧ ∃ d ∈ parseXsdDependencies f.content,
        extractFilename d.schemaLocation = "A.xsd") ∧
      determineSchemaRole "A.xsd" exCycle3 ≠ .master ∧
      (determineSchemaRole "A.xsd" exCycle3 = .imported ∨
        determineSchemaRole "A.xsd" exCycle3 = .included)) ∧
    ((∃ f ∈ exCycle3, f.filename ≠ "B.xsd" ∧ ∃ d ∈ parseXsdDependencies f.content,
        extractFilename d.schemaLocation = "B.xsd") ∧
      determineSchemaRole "B.xsd" exCycle3 ≠ .master ∧
      (determineSchemaRole "B.xsd" exCycle3 = .imported ∨
        determineSchemaRole "B.xsd" exCycle3 = .included)) ∧
    ((∃ f ∈ exCycle3, f.filename ≠ "C.xsd" ∧ ∃ d ∈ parseXsdDependencies f.content,
        extractFilename d.schemaLocation = "C.xsd") ∧
      determineSchemaRole "C.xsd" exCycle3 ≠ .master ∧
      (determineSchemaRole "C.xsd" exCycle3 = .imported ∨
        determineSchemaRole "C.xsd" exCycle3 = .included)) ∧
    ((∃ f ∈ exCycle2, f.filename ≠ "A.xsd" ∧ ∃ d ∈ parseXsdDependencies f.content,
        extractFilename d.schemaLocation = "A.xsd") ∧
      determineSchemaRole "A.xsd" exCycle2 ≠ .master) ∧
    ((∃ f ∈ exCycle2, f.filename ≠ "B.xsd" ∧ ∃ d ∈ parseXsdDependencies f.content,
        extractFilename d.schemaLocation = "B.xsd") ∧
      determineSchemaRole "B.xsd" exCycle2 ≠ .master) :=
  ⟨⟨by decide, c4_cycle_no_master "A.xsd" exCycle3 (by decide)⟩,
   ⟨by decide, c4_cycle_no_master "B.xsd" exCycle3 (by decide)⟩,
   ⟨by decide, c4_cycle_no_master "C.xsd" exCycle3 (by decide)⟩,
   ⟨by decide, (c4_cycle_no_master "A.xsd" exCycle2 (by decide)).1⟩,
   ⟨by decide, (c4_cycle_no_master "B.xsd" exCycle2 (by decide)).1⟩⟩

/-- Claim C5: `parseXsdDependencies` returns exactly the import-tag entries
followed by the include-tag entries in source order, dropping tags without a
`schemaLocation`; attribute matching is case-insensitive with either quote
style; `namespace` is only populated on imports; and the two spec examples. -/
theorem c5_dependency_extraction :
    (∀ s : String, parseXsdDependencies s =
        (scanDepTags "import" s).filterMap (fun a => (extractAttribute a "schemalocation").map
          (fun sl => ⟨.imp, sl, extractAttribute a "namespace"⟩)) ++
        (scanDepTags "include" s).filterMap (fun a => (extractAttribute a "schemalocation").map
          (fun sl => ⟨.inc, sl, none⟩))) ∧
    (∀ (s : String) (d : XsdDependency), d ∈ parseXsdDependencies s → d.type = .inc →
      d.ns = none) ∧
    parseXsdDependencies "<xs:import namespace=\"urn:x\" schemaLocation=\"other.xsd\"/>" =
      [⟨.imp, "other.xsd", some "urn:x"⟩] ∧
    parseXsdDependencies "<xs:import namespace=\"urn:x\"/>" = [] ∧
    parseXsdDependencies "<XS:IMPORT SCHEMALOCATION=\x27x.xsd\x27>" =
      [⟨.imp, "x.xsd", none⟩] := by
  refine ⟨?_, ?_, rfl, rfl, rfl⟩
  · intro s
    rw [parseXsdDependencies, impLoop_eq, incLoop_eq]
  · intro s d hd hinc
    rw [parseXsdDependencies] at hd
    rcases List.mem_append.mp hd with h1 | h2
    · have himp := mem_impLoop_type h1
      rw [himp] at hinc
      exact DepKind.noConfusion hinc
    · exact mem_incLoop_ns h2

/-- Claim C7: `parseXsd` never throws across its boundary (it is a total
function of the tokenizer outcome): it returns `none` exactly when the
tokenizer failed (thrown exception, caught) or no `xs:schema`/`xsd:schema`
element occurs among the top-level nodes, and a root node otherwise. -/
theorem c7_no_throw (e : Except String (List XmlNode)) :
    (parseXsd e).isSome = true ↔
      ∃ l, e = .ok l ∧ l.any (fun x => isSchemaName (getNodeName x)) = true := by
  cases e with
  | error msg => simp [parseXsd, parseXsdWithCounter]
  | ok parsed =>
    by_cases hemp : parsed.isEmpty
    · have hnil : parsed = [] := by
        cases parsed
        · rfl
        · cases hemp
      subst hnil
      simp [parseXsd, parseXsdWithCounter]
    · simp only [parseXsd, parseXsdWithCounter, hemp, Bool.false_eq_true, if_false]
      rw [parseXsdCore_isSome]
      constructor
      · intro h
        exact ⟨parsed, rfl, h⟩
      · rintro ⟨l, hl, hany⟩
        injection hl with hl
        rw [hl]
        exact hany

/-- Claim C8: the set of node paths produced by a parse does not depend on the
incoming state of the process-global id counter (it is reset on entry), so
re-parsing unmodified text yields an identical path set. -/
theorem c8_path_determinism (e : Except String (List XmlNode)) (c1 c2 : Nat) (p : String) :
    p ∈ pathsOfOpt (parseXsdWithCounter e c1).1 ↔ p ∈ pathsOfOpt (parseXsdWithCounter e c2).1 := by
  have h : ∀ c : Nat, parseXsdWithCounter e c = parseXsdWithCounter e 0 := by
    intro c
    cases e <;> rfl
  rw [h c1, h c2]

/-- Claim C10: the upload component's `determineRole` never returns
`included` — any referenced file is reported `imported`, even when the
referencing declaration is an `xs:include` — unlike the backend
`determineSchemaRole`, which reports `included` on the same file set. -/
theorem c10_upload_role :
    (∀ (file : UploadedFile) (allFiles : List UploadedFile),
      determineRole file allFiles ≠ .included) ∧
    (∀ (file : UploadedFile) (allFiles : List UploadedFile),
      allFiles.any (fun f => f.filename ≠ file.filename &&
        f.dependencies.contains file.filename) = true →
      determineRole file allFiles = .imported) ∧
    determineRole exUpB [exUpA, exUpB] = .imported ∧
    determineSchemaRole "B.xsd" exIncPairFiles = .included := by
  refine ⟨?_, ?_, rfl, rfl⟩
  · intro file allFiles
    simp only [determineRole]
    cases hR : allFiles.any fun f => decide (f.filename ≠ file.filename) &&
        f.dependencies.contains file.filename <;>
      cases hD : file.dependencies.isEmpty <;>
        simp [hR, hD]
  · intro file allFiles h
    simp only [determineRole]
    rw [h]
    simp

/-- Claim C1 counterexample: for the spec's nested example the parsed paths
keep the namespace marker on every segment and the root path is `/xs:schema`,
so neither the claimed unprefixed path nor the empty root path occurs. -/
theorem c1_path_counterexample :
    pathsOfOpt (parseXsd (.ok [exC1])) =
      ["/xs:schema",
       "/xs:schema/xs:complexType[@name=\x27Bar\x27]",
       "/xs:schema/xs:complexType[@name=\x27Bar\x27]/xs:sequence",
       "/xs:schema/xs:complexType[@name=\x27Bar\x27]/xs:sequence/xs:element[@name=\x27Foo\x27]"] ∧
    "/complexType[@name=\x27Bar\x27]/sequence/element[@name=\x27Foo\x27]" ∉
      pathsOfOpt (parseXsd (.ok [exC1])) ∧
    "" ∉ pathsOfOpt (parseXsd (.ok [exC1])) :=
  ⟨rfl, by decide, by decide⟩

/-- Claim C1 amended: each node's path is its parent's path plus `/` plus the
node's raw (still namespace-prefixed) tag name, with `[@name='v']` appended
when the node carries a truthy `name` or `ref` attribute; the root's path is
`/` plus the schema tag (plus suffix), not empty. -/
theorem c1_path_amended (e : Except String (List XmlNode)) (root : XsdNode)
    (h : parseXsd e = some root) :
    (∃ tag : String, isSchemaName tag = true ∧
      root.xpath = "/" ++ tag ++ xpathSuffix root.attributes) ∧
    ∀ m ∈ flattenNodes root, ∀ cnode ∈ m.children,
      ∃ tag : String, stripNs tag = cnode.type ∧
        cnode.xpath = m.xpath ++ "/" ++ tag ++ xpathSuffix cnode.attributes := by
  obtain ⟨x, root0, c2, hs, hpn, hroot⟩ := parseXsd_inv h
  obtain ⟨hxp, hty, hattrs, hname, hpaths⟩ := parseNode_shape x "" 0 root0 c2 hpn
  subst hroot
  constructor
  · refine ⟨getNodeName x, hs, ?_⟩
    rw [resolveRefs_xpath, resolveRefs_attributes, hxp, hattrs, strEmptyAppend]
  · intro m hm cnode hc
    rw [flattenNodes_resolve] at hm
    obtain ⟨m0, hm0, hmeq⟩ := List.mem_map.mp hm
    subst hmeq
    rw [resolveRefs_children] at hc
    obtain ⟨c0, hc0, hceq⟩ := List.mem_map.mp hc
    subst hceq
    obtain ⟨tag, ht, hx⟩ := hpaths m0 hm0 c0 hc0
    refine ⟨tag, ?_, ?_⟩
    · rw [resolveRefs_type]
      exact ht
    · rw [resolveRefs_xpath, resolveRefs_attributes, resolveRefs_xpath]
      exact hx

/-- Claim C1 witness: the amended path rule instantiated on the spec's nested
example. -/
theorem c1_path_amended_witness :
    parseXsd (.ok [exC1]) = some (theRoot (.ok [exC1])) ∧
    ((∃ tag : String, isSchemaName tag = true ∧
      (theRoot (.ok [exC1])).xpath = "/" ++ tag ++ xpathSuffix (theRoot (.ok [exC1])).attributes) ∧
    ∀ m ∈ flattenNodes (theRoot (.ok [exC1])), ∀ cnode ∈ m.children,
      ∃ tag : String, stripNs tag = cnode.type ∧
        cnode.xpath = m.xpath ++ "/" ++ tag ++ xpathSuffix cnode.attributes) :=
  ⟨rfl, c1_path_amended (.ok [exC1]) (theRoot (.ok [exC1])) rfl⟩

/-- Claim C6 counterexample: a parsed `xs:sequence` node carries neither a
`name` nor a `ref` attribute, yet its `name` field is `"sequence"` (the
unprefixed kind), not the empty string. -/
theorem c6_name_counterexample :
    (nodeAt (.ok [exC6]) 1).name = "sequence" ∧
    lookupAttr (nodeAt (.ok [exC6]) 1).attributes "name" = none ∧
    lookupAttr (nodeAt (.ok [exC6]) 1).attributes "ref" = none ∧
    (nodeAt (.ok [exC6]) 1).name ≠ "" :=
  ⟨rfl, rfl, rfl, by decide⟩

/-- Claim C6 amended: a parsed node's `name` equals its `name` attribute when
present and non-empty, else its `ref` attribute when present and non-empty,
else the node's unprefixed tag name (JS truthiness treats an empty attribute
as absent, and the fallback is the kind, not the empty string). -/
theorem c6_name_amended (x : XmlNode) (p : String) (c : Nat) (n : XsdNode) (c2 : Nat)
    (h : parseNode x p c = (some n, c2)) :
    n.name = nameFormula (getAttributes x) (getNodeName x) :=
  (parseNode_shape x p c n c2 h).2.2.2.1

/-- Claim C6 witness: the amended name rule instantiated on the schema node of
the sequence example. -/
theorem c6_name_amended_witness :
    parseNode exC6 "" 0 = (some (theRoot (.ok [exC6])), 2) ∧
    (theRoot (.ok [exC6])).name = nameFormula (getAttributes exC6) (getNodeName exC6) :=
  ⟨rfl, c6_name_amended exC6 "" 0 (theRoot (.ok [exC6])) 2 rfl⟩

/-- Claim C9 counterexample: a reference sibling written before the definition
gets the same computed path (`ref` feeds the `[@name=..]` suffix), so the
linear scan returns the reference node, not the named definition node. -/
theorem c9_lookup_counterexample :
    (nodeAt (.ok [exC9]) 2).xpath = "/xs:schema/xs:element[@name=\x27Foo\x27]" ∧
    lookupAttr (nodeAt (.ok [exC9]) 2).attributes "name" = some "Foo" ∧
    lookupAttr (nodeAt (.ok [exC9]) 2).attributes "ref" = none ∧
    (findNodeByXpath (theRoot (.ok [exC9]))
        "/xs:schema/xs:element[@name=\x27Foo\x27]").map XsdNode.isRef = some true ∧
    (nodeAt (.ok [exC9]) 2).isRef = false :=
  ⟨rfl, rfl, rfl, rfl, rfl⟩

/-- Claim C9 amended: a node with a `name` attribute and no `ref` attribute is
found by `findNodeByXpath` under its own computed path provided that path is
unique in the tree (the linear scan returns the first node with the path, so
an earlier node sharing it — e.g. a same-named `ref` sibling — shadows it). -/
theorem c9_lookup_amended (e : Except String (List XmlNode)) (root n : XsdNode)
    (_hroot : parseXsd e = some root)
    (hn : n ∈ flattenNodes root)
    (_hname : (lookupAttr n.attributes "name").isSome = true)
    (_hnoref : lookupAttr n.attributes "ref" = none)
    (huniq : ∀ m ∈ flattenNodes root, m.xpath = n.xpath → m = n) :
    findNodeByXpath root n.xpath = some n := by
  unfold findNodeByXpath
  exact find_first_unique (flattenNodes root) hn huniq

/-- Claim C9 witness: the amended lookup rule instantiated on a schema with a
single uniquely named element. -/
theorem c9_lookup_amended_witness :
    parseXsd (.ok [exC9w]) = some (theRoot (.ok [exC9w])) ∧
    nodeAt (.ok [exC9w]) 1 ∈ flattenNodes (theRoot (.ok [exC9w])) ∧
    (lookupAttr (nodeAt (.ok [exC9w]) 1).attributes "name").isSome = true ∧
    lookupAttr (nodeAt (.ok [exC9w]) 1).attributes "ref" = none ∧
    (∀ m ∈ flattenNodes (theRoot (.ok [exC9w])),
      m.xpath = (nodeAt (.ok [exC9w]) 1).xpath → m = nodeAt (.ok [exC9w]) 1) ∧
    findNodeByXpath (theRoot (.ok [exC9w])) (nodeAt (.ok [exC9w]) 1).xpath =
      some (nodeAt (.ok [exC9w]) 1) := by
  have hmem : nodeAt (.ok [exC9w]) 1 ∈ flattenNodes (theRoot (.ok [exC9w])) :=
    List.Mem.tail _ (List.Mem.head _)
  have huniq : ∀ m ∈ flattenNodes (theRoot (.ok [exC9w])),
      m.xpath = (nodeAt (.ok [exC9w]) 1).xpath → m = nodeAt (.ok [exC9w]) 1 := by
    intro m hm hx
    rcases List.mem_cons.mp hm with h1 | h2
    · rw [h1] at hx
      exact absurd hx (by decide)
    · rcases List.mem_cons.mp h2 with h3 | h4
      · exact h3
      · cases h4
  exact ⟨rfl, hmem, rfl, rfl, huniq,
    c9_lookup_amended (.ok [exC9w]) (theRoot (.ok [exC9w])) (nodeAt (.ok [exC9w]) 1)
      rfl hmem rfl rfl huniq⟩

/-- Fact that `isDefNodeKey` only inspects fields that `resolveRefs` preserves. -/
theorem isDefNodeKey_resolve (K : String) (idx : NameIndex) (t : XsdNode) :
    isDefNodeKey K (resolveRefs idx t) = isDefNodeKey K t := by
  unfold isDefNodeKey typeKeyStr
  rw [resolveRefs_attributes, resolveRefs_isRef, resolveRefs_type]

/-- Claim C2 counterexample: with two same-kind definitions named `Foo`, the
later one in document order overwrites the index entry, so the reference does
not resolve to the earlier matching definition's path, refuting the claim's
universal reading. -/
theorem c2_ref_resolution_counterexample :
    (nodeAt (.ok [exC2dup]) 1).isRef = true ∧
    (nodeAt (.ok [exC2dup]) 1).refName = some "Foo" ∧
    (nodeAt (.ok [exC2dup]) 1).type = "element" ∧
    lookupAttr (nodeAt (.ok [exC2dup]) 2).attributes "name" = some "Foo" ∧
    (nodeAt (.ok [exC2dup]) 2).isRef = false ∧
    (nodeAt (.ok [exC2dup]) 2).type = "element" ∧
    (nodeAt (.ok [exC2dup]) 2).xpath = "/xs:schema/xs:element[@name=\x27Foo\x27]" ∧
    (nodeAt (.ok [exC2dup]) 1).refTargetXpath =
      some "/xs:schema/xs:complexType[@name=\x27C\x27]/xs:sequence/xs:element[@name=\x27Foo\x27]" ∧
    (nodeAt (.ok [exC2dup]) 1).refTargetXpath ≠ some (nodeAt (.ok [exC2dup]) 2).xpath :=
  ⟨rfl, rfl, rfl, rfl, rfl, rfl, rfl, rfl, by decide⟩

/-- Claim C2 amended: after `parseXsd`, a reference node whose index key
(kind `:` stripped reference name, where stripping takes the second
colon-separated segment) is carried by a definition node that is unique for
that key — up to path — has `refTargetXpath` equal to that definition's path;
forward references resolve because the whole-tree index is built before
resolution. -/
theorem c2_ref_resolution_amended (e : Except String (List XmlNode))
    (root r d : XsdNode) (rn : String)
    (hroot : parseXsd e = some root)
    (hr : r ∈ flattenNodes root) (hrRef : r.isRef = true) (hrn : r.refName = some rn)
    (hrne : rn ≠ "")
    (hd : d ∈ flattenNodes root)
    (hdK : isDefNodeKey (r.type ++ ":" ++ stripRefName rn) d = true)
    (huniq : ∀ d' ∈ flattenNodes root,
      isDefNodeKey (r.type ++ ":" ++ stripRefName rn) d' = true → d'.xpath = d.xpath) :
    r.refTargetXpath = some d.xpath := by
  obtain ⟨x, root0, c2, hs, hpn, hR⟩ := parseXsd_inv hroot
  subst hR
  rw [flattenNodes_resolve] at hr hd
  obtain ⟨r0, hr0, hreq⟩ := List.mem_map.mp hr
  obtain ⟨d0, hd0, hdeq⟩ := List.mem_map.mp hd
  subst hreq
  subst hdeq
  have hKeq : (resolveRefs (buildNameIndex root0 []) r0).type ++ ":" ++ stripRefName rn =
      r0.type ++ ":" ++ stripRefName rn := by
    rw [resolveRefs_type]
  rw [hKeq] at hdK huniq
  rw [isDefNodeKey_resolve] at hdK
  obtain ⟨t0, ht0mem, ht0K, hget⟩ :=
    index_complete (K := r0.type ++ ":" ++ stripRefName rn) (t := root0) ⟨d0, hd0, hdK⟩
  have hrRef0 : r0.isRef = true := by
    rw [← resolveRefs_isRef (buildNameIndex root0 []) r0]
    exact hrRef
  have hrn0 : r0.refName = some rn := by
    rw [← resolveRefs_refName (buildNameIndex root0 []) r0]
    exact hrn
  have hcomp := resolveRefs_refTarget (buildNameIndex root0 []) r0 rn hrRef0 hrn0 hrne
  have hlook : resolveLookup (buildNameIndex root0 []) r0.type (stripRefName rn) = some t0 := by
    unfold resolveLookup
    rw [hget]
  rw [hcomp, hlook]
  have ht0fin : resolveRefs (buildNameIndex root0 []) t0 ∈
      flattenNodes (resolveRefs (buildNameIndex root0 []) root0) := by
    rw [flattenNodes_resolve]
    exact List.mem_map_of_mem _ ht0mem
  have ht0K' : isDefNodeKey (r0.type ++ ":" ++ stripRefName rn)
      (resolveRefs (buildNameIndex root0 []) t0) = true := by
    rw [isDefNodeKey_resolve]
    exact ht0K
  have hxeq := huniq (resolveRefs (buildNameIndex root0 []) t0) ht0fin ht0K'
  rw [resolveRefs_xpath] at hxeq
  show some t0.xpath = some (resolveRefs (buildNameIndex root0 []) d0).xpath
  rw [hxeq]

/-- Claim C2 witness: the amended resolution rule instantiated on a schema
with one definition and one forward reference to it. -/
theorem c2_ref_resolution_amended_witness :
    parseXsd (.ok [exC2]) = some (theRoot (.ok [exC2])) ∧
    nodeAt (.ok [exC2]) 1 ∈ flattenNodes (theRoot (.ok [exC2])) ∧
    (nodeAt (.ok [exC2]) 1).isRef = true ∧
    (nodeAt (.ok [exC2]) 1).refName = some "Foo" ∧
    "Foo" ≠ "" ∧
    nodeAt (.ok [exC2]) 2 ∈ flattenNodes (theRoot (.ok [exC2])) ∧
    isDefNodeKey ((nodeAt (.ok [exC2]) 1).type ++ ":" ++ stripRefName "Foo")
      (nodeAt (.ok [exC2]) 2) = true ∧
    (∀ d' ∈ flattenNodes (theRoot (.ok [exC2])),
      isDefNodeKey ((nodeAt (.ok [exC2]) 1).type ++ ":" ++ stripRefName "Foo") d' = true →
      d'.xpath = (nodeAt (.ok [exC2]) 2).xpath) ∧
    (nodeAt (.ok [exC2]) 1).refTargetXpath = some (nodeAt (.ok [exC2]) 2).xpath := by
  have hr : nodeAt (.ok [exC2]) 1 ∈ flattenNodes (theRoot (.ok [exC2])) :=
    List.Mem.tail _ (List.Mem.head _)
  have hd : nodeAt (.ok [exC2]) 2 ∈ flattenNodes (theRoot (.ok [exC2])) :=
    List.Mem.tail _ (List.Mem.tail _ (List.Mem.head _))
  have hall : (flattenNodes (theRoot (.ok [exC2]))).all
      (fun d' => !isDefNodeKey ((nodeAt (.ok [exC2]) 1).type ++ ":" ++ stripRefName "Foo") d' ||
        d'.xpath == (nodeAt (.ok [exC2]) 2).xpath) = true := by decide
  have huniq : ∀ d' ∈ flattenNodes (theRoot (.ok [exC2])),
      isDefNodeKey ((nodeAt (.ok [exC2]) 1).type ++ ":" ++ stripRefName "Foo") d' = true →
      d'.xpath = (nodeAt (.ok [exC2]) 2).xpath := by
    intro d' hd' hK
    have h := List.all_eq_true.mp hall d' hd'
    rw [hK] at h
    simpa using h
  exact ⟨rfl, hr, rfl, rfl, by decide, hd, by decide, huniq,
    c2_ref_resolution_amended (.ok [exC2]) (theRoot (.ok [exC2]))
      (nodeAt (.ok [exC2]) 1) (nodeAt (.ok [exC2]) 2) "Foo"
      rfl hr rfl rfl (by decide) hd (by decide) huniq⟩
